import Mathlib

/-!
Shallow embedding of the timesheet application `times.py`.

Conventions of the embedding:
* Timestamps (`datetime` values produced by `parse_dt`) are modelled as `Int`
  seconds since the epoch; the one-hour travel shift is 3600 seconds and a
  calendar day is 86400 seconds.
* The database is a triple of lists (`AppState`): users, projects, time
  entries.  SQLite autoincrement ids are modelled as `max existing id + 1`.
* Each distinct error message of the handlers becomes one constructor of
  `ApiError` (a 404 from `get_or_404` is `ApiError.notFound`).
* `request.get_json()` dictionaries become request structures whose fields are
  `Option`s (`none` = key absent).  The `prefix` field of a project-creation
  request can additionally be the empty string or a non-integer string, hence
  its own type `PrefixField`.
-/

/-- Model of Python `str.strip()`: drop leading and trailing whitespace. -/
def pyIsSpace (c : Char) : Bool :=
  c == ' ' || c == '\t' || c == '\n' || c == '\r' || c == '\x0b' || c == '\x0c'

/-- Python `s.strip()` on the model character set. -/
def pyStrip (s : String) : String :=
  String.mk (((s.toList.dropWhile pyIsSpace).reverse.dropWhile pyIsSpace).reverse)

/-- Row of the `user` table (password hash omitted: no claim touches it). -/
structure User where
  id : Int
  username : String
deriving Repr, DecidableEq

/-- Row of the `project` table.  The Python column `prefix` is called
`prefixNum` here because `prefix` is a Lean keyword. -/
structure Project where
  id : Int
  title : String
  prefixNum : Int
  division : String
  is_active : Bool
deriving Repr, DecidableEq

/-- Row of the `time_entry` table.  `start_time` and `end_time` are stored
(shifted) timestamps in seconds. -/
structure TimeEntry where
  id : Int
  user_id : Option Int
  project_id : Int
  start_time : Int
  end_time : Int
  notes : String
  travel_morning : Bool
  travel_afternoon : Bool
deriving Repr, DecidableEq

/-- `TimeEntry.duration_hours`: `(end_time - start_time).total_seconds() / 3600`. -/
def duration_hours (e : TimeEntry) : ℚ :=
  ((e.end_time - e.start_time : Int) : ℚ) / 3600

/-- The whole persistent state of the application. -/
structure AppState where
  users : List User
  projects : List Project
  entries : List TimeEntry
deriving Repr, DecidableEq

/-- One constructor per distinct error response of the handlers.  The string
carried by each 400 response in `times.py` is recorded in the comments. -/
inductive ApiError
  /-- `get_or_404` missing row (HTTP 404). -/
  | notFound
  /-- division must be one of VALID_DIVISIONS -/
  | invalidDivision
  /-- Title is required -/
  | titleRequired
  /-- Custom prefix is only allowed for Liquid Pack machine ID projects -/
  | customPrefixOnlyLiquidPack
  /-- Prefix must be an integer -/
  | prefixNotInteger
  /-- Machine ID prefix must be a positive integer -/
  | prefixNotPositive
  /-- Machine ID prefix must not be between 2000 and 2999 -/
  | prefixReserved
  /-- Prefix already exists -/
  | prefixExists
  /-- End time must be after start time -/
  | endNotAfterStart
  /-- Invalid start date -/
  | invalidStartDate
  /-- Invalid end date -/
  | invalidEndDate
  /-- Storage-level failure: the INSERT violates the schema's unique index on
  `Project.prefix` (`unique=True`, `times.py:82`) and `db.session.commit()`
  raises an IntegrityError, surfaced as a generic 500 (spec section 7). -/
  | integrityError
deriving Repr, DecidableEq

/-- `VALID_DIVISIONS = ("Melbourne Power", "Liquid Pack")`. -/
def validDivision (d : String) : Bool :=
  d == "Melbourne Power" || d == "Liquid Pack"

/-- The base of a division's auto-allocation window:
`base = 1000 if division == "Melbourne Power" else 2000`. -/
def divisionBase (division : String) : Int :=
  if division == "Melbourne Power" then 1000 else 2000

/-- SQL `MAX` over a column: `none` models SQL `NULL` (no rows). -/
def maxOfList : List Int → Option Int
  | [] => none
  | x :: xs =>
    match maxOfList xs with
    | none => some x
    | some m => some (max x m)

/-- The row filter of `next_project_prefix`: division matches and the prefix
lies in `[base, base + 1000)`. -/
def inWindow (division : String) (p : Project) : Bool :=
  p.division == division && divisionBase division ≤ p.prefixNum &&
    p.prefixNum < divisionBase division + 1000

/-- The SQL `MAX(prefix)` over rows passing `inWindow`. -/
def windowMaxPrefix (projects : List Project) (division : String) : Option Int :=
  maxOfList ((projects.filter (inWindow division)).map (fun p => p.prefixNum))

/-- `next_project_prefix(division)` from `times.py`. -/
def nextProjectPrefix (projects : List Project) (division : String) : Int :=
  let base := divisionBase division
  match windowMaxPrefix projects division with
  | none => base
  | some last => if last < base then base else last + 1

/-- SQLite-style autoincrement id for a new project row. -/
def nextProjectId (projects : List Project) : Int :=
  (projects.foldl (fun m p => max m p.id) 0) + 1

/-- SQLite-style autoincrement id for a new time-entry row. -/
def nextEntryId (entries : List TimeEntry) : Int :=
  (entries.foldl (fun m e => max m e.id) 0) + 1

/-- The `prefix` field of a project-creation request body:
absent key / `None`, empty string, an integer-parsing value, or a value
`int()` rejects. -/
inductive PrefixField
  | absent
  | emptyStr
  | intVal (n : Int)
  | malformed
deriving Repr, DecidableEq

/-- Body of `POST /api/projects`. -/
structure ProjectRequest where
  title : Option String
  division : Option String
  prefixField : PrefixField
deriving Repr, DecidableEq

/-- The division a request resolves to:
`division = (data.get("division") or "").strip() or "Melbourne Power"`. -/
def resolvedDivision (req : ProjectRequest) : String :=
  let d := pyStrip (req.division.getD "")
  if d == "" then "Melbourne Power" else d

/-- The POST branch of `api_projects` in `times.py`: validation, optional
custom prefix, auto allocation, insertion.  Returns the created row and the
new project table.  The insertion models the schema's unique index on
`Project.prefix` (`unique=True`): a colliding INSERT makes the commit raise
an IntegrityError (the generic 500 of spec section 7) instead of persisting
— this can fire on the auto path, which has no application-level pre-check. -/
def createProject (projects : List Project) (req : ProjectRequest) :
    Except ApiError (Project × List Project) :=
  let title := pyStrip (req.title.getD "")
  let division := resolvedDivision req
  if ¬ validDivision division then .error .invalidDivision
  else if title == "" then .error .titleRequired
  else
    let withPrefixNum : Int → Except ApiError (Project × List Project) := fun n =>
      if projects.any (fun p => p.prefixNum == n) then .error .integrityError
      else
        let p : Project :=
          { id := nextProjectId projects, title := title, prefixNum := n,
            division := division, is_active := true }
        .ok (p, projects ++ [p])
    match req.prefixField with
    | .absent => withPrefixNum (nextProjectPrefix projects division)
    | .emptyStr => withPrefixNum (nextProjectPrefix projects division)
    | .malformed =>
      if division ≠ "Liquid Pack" then .error .customPrefixOnlyLiquidPack
      else .error .prefixNotInteger
    | .intVal n =>
      if division ≠ "Liquid Pack" then .error .customPrefixOnlyLiquidPack
      else if n ≤ 0 then .error .prefixNotPositive
      else if 2000 ≤ n ∧ n < 3000 then .error .prefixReserved
      else if projects.any (fun p => p.prefixNum == n) then .error .prefixExists
      else withPrefixNum n

/-- Effect of the soft delete on one project row. -/
def softDeleteRow (pid : Int) (p : Project) : Project :=
  if p.id == pid then { p with is_active := false } else p

/-- The DELETE branch of `api_project_update`: soft delete, setting
`is_active = False` on the found row. -/
def deleteProject (s : AppState) (pid : Int) : Except ApiError AppState :=
  if s.projects.any (fun p => p.id == pid) then
    .ok { s with projects := s.projects.map (softDeleteRow pid) }
  else .error .notFound

/-- Body of `POST /api/entries` after `parse_dt` succeeded on both times
(raw, unshifted timestamps). -/
structure EntryCreateRequest where
  project_id : Int
  start_time : Int
  end_time : Int
  notes : Option String
  travel_morning : Bool
  travel_afternoon : Bool
deriving Repr, DecidableEq

/-- The POST branch of `api_entries`: apply travel shifts to what is saved,
validate `end > start` on the shifted values, insert with the authenticated
user as creator. -/
def createEntry (s : AppState) (uid : Int) (req : EntryCreateRequest) :
    Except ApiError (TimeEntry × AppState) :=
  let start_time := if req.travel_morning then req.start_time - 3600 else req.start_time
  let end_time := if req.travel_afternoon then req.end_time + 3600 else req.end_time
  if end_time ≤ start_time then .error .endNotAfterStart
  else
    let entry : TimeEntry :=
      { id := nextEntryId s.entries, user_id := some uid,
        project_id := req.project_id, start_time := start_time, end_time := end_time,
        notes := pyStrip (req.notes.getD ""), travel_morning := req.travel_morning,
        travel_afternoon := req.travel_afternoon }
    .ok (entry, { s with entries := s.entries ++ [entry] })

/-- Body of `PUT /api/entries/<id>`.  The dictionary may carry a `user_id`
key (modelled here), but the handler never reads it. -/
structure EntryUpdateRequest where
  project_id : Option Int
  notes : Option String
  travel_morning : Option Bool
  travel_afternoon : Option Bool
  start_time : Option Int
  end_time : Option Int
  user_id : Option Int
deriving Repr, DecidableEq

/-- The PUT branch of `api_entry_update`: travel flags are applied first,
unsupplied times default to the currently stored values, then the shift is
re-applied and `end > start` validated.  Returns the updated row and state. -/
def updateEntry (s : AppState) (eid : Int) (req : EntryUpdateRequest) :
    Except ApiError (TimeEntry × AppState) :=
  match s.entries.find? (fun e => e.id == eid) with
  | none => .error .notFound
  | some entry =>
    let entry1 : TimeEntry :=
      { entry with
        project_id := req.project_id.getD entry.project_id,
        notes := match req.notes with | some t => pyStrip t | none => entry.notes,
        travel_morning := req.travel_morning.getD entry.travel_morning,
        travel_afternoon := req.travel_afternoon.getD entry.travel_afternoon }
    let st0 := req.start_time.getD entry.start_time
    let en0 := req.end_time.getD entry.end_time
    let st1 := if entry1.travel_morning then st0 - 3600 else st0
    let en1 := if entry1.travel_afternoon then en0 + 3600 else en0
    if en1 ≤ st1 then .error .endNotAfterStart
    else
      let entry2 : TimeEntry := { entry1 with start_time := st1, end_time := en1 }
      let newEntries := s.entries.map (fun e => if e.id == eid then entry2 else e)
      .ok (entry2, { s with entries := newEntries })

/-- A date query parameter of `GET /api/entries`: absent, present but not
ISO-parseable, or a parsed calendar day (day index since the epoch). -/
inductive DateParam
  | missing
  | invalid
  | valid (day : Int)
deriving Repr, DecidableEq

/-- Query string of `GET /api/entries`. -/
structure EntryListQuery where
  project_id : Option Int
  user_id : Option Int
  startD : DateParam
  endD : DateParam
deriving Repr, DecidableEq

/-- Descending-by-start order used by the entry listing. -/
def entryDesc (a b : TimeEntry) : Prop := b.start_time ≤ a.start_time

instance : DecidableRel entryDesc := fun a b => by
  unfold entryDesc; infer_instance

instance : IsTotal TimeEntry entryDesc :=
  ⟨fun a b => le_total b.start_time a.start_time⟩

instance : IsTrans TimeEntry entryDesc :=
  ⟨fun _ _ _ h1 h2 => le_trans h2 h1⟩

/-- `q.filter(TimeEntry.project_id == int(project_id))` when the parameter is
present. -/
def applyProjectFilter (o : Option Int) (l : List TimeEntry) : List TimeEntry :=
  match o with
  | none => l
  | some pid => l.filter (fun e => e.project_id == pid)

/-- `q.filter(TimeEntry.user_id == int(user_id))` when the parameter is
present. -/
def applyUserFilter (o : Option Int) (l : List TimeEntry) : List TimeEntry :=
  match o with
  | none => l
  | some uid => l.filter (fun e => e.user_id == some uid)

/-- `q.filter(TimeEntry.start_time >= start + "T00:00")` for a parsed start
date (no effect when the parameter is absent). -/
def applyStartFilter (dp : DateParam) (l : List TimeEntry) : List TimeEntry :=
  match dp with
  | .valid d => l.filter (fun e => decide (d * 86400 ≤ e.start_time))
  | _ => l

/-- `q.filter(TimeEntry.start_time <= end + "T23:59:59")` for a parsed end
date (no effect when the parameter is absent). -/
def applyEndFilter (dp : DateParam) (l : List TimeEntry) : List TimeEntry :=
  match dp with
  | .valid d => l.filter (fun e => decide (e.start_time ≤ d * 86400 + 86399))
  | _ => l

/-- The GET branch of `api_entries`: `ORDER BY start_time DESC`, then the
optional project, user, start-date, end-date filters, with the date bounds
parsed as `start + "T00:00"` and `end + "T23:59:59"` (a malformed start date
is reported before the end date is looked at, as in the handler). -/
def listEntries (entries : List TimeEntry) (q : EntryListQuery) :
    Except ApiError (List TimeEntry) :=
  match q.startD with
  | .invalid => .error .invalidStartDate
  | qs =>
    match q.endD with
    | .invalid => .error .invalidEndDate
    | qe =>
      .ok (applyEndFilter qe (applyStartFilter qs (applyUserFilter q.user_id
        (applyProjectFilter q.project_id (List.insertionSort entryDesc entries)))))

/-- Ascending-by-start order used by the CSV export. -/
def entryAsc (a b : TimeEntry) : Prop := a.start_time ≤ b.start_time

instance : DecidableRel entryAsc := fun a b => by
  unfold entryAsc; infer_instance

/-- One data row of the CSV produced by `api_export` (header row omitted);
`none` in a project column models the empty cell written when the joined
project row is absent. -/
structure ExportRow where
  entry_id : Int
  username : String
  projPrefix : Option Int
  projTitle : Option String
  projDivision : Option String
  start_time : Int
  end_time : Int
  durationHours : ℚ
  notes : String
  travel_morning : Bool
  travel_afternoon : Bool
deriving Repr, DecidableEq

/-- Render one entry as its CSV row (joins against users and projects). -/
def exportRow (s : AppState) (e : TimeEntry) : ExportRow :=
  let proj := s.projects.find? (fun p => p.id == e.project_id)
  { entry_id := e.id,
    username := match e.user_id with
      | none => ""
      | some uid => ((s.users.find? (fun u => u.id == uid)).map User.username).getD "",
    projPrefix := proj.map Project.prefixNum,
    projTitle := proj.map Project.title,
    projDivision := proj.map Project.division,
    start_time := e.start_time,
    end_time := e.end_time,
    durationHours := duration_hours e,
    notes := e.notes,
    travel_morning := e.travel_morning,
    travel_afternoon := e.travel_afternoon }

/-- `api_export`: optional project filter, ascending order by start time,
one CSV row per entry. -/
def exportRows (s : AppState) (pid? : Option Int) : List ExportRow :=
  let q := match pid? with
    | none => s.entries
    | some pid => s.entries.filter (fun e => e.project_id == pid)
  (List.insertionSort entryAsc q).map (exportRow s)

/-- Seconds-since-epoch timestamp of a naive local datetime given as
(day index since 1970-01-01, hour, minute); 2024-01-02 is day 19724. -/
def dtm (day hh mm : Int) : Int := day * 86400 + hh * 3600 + mm * 60

/-- The empty database. -/
def emptyState : AppState := ⟨[], [], []⟩

/-- The row inserted by a successful `POST /api/entries`. -/
def mkCreatedEntry (s : AppState) (uid : Int) (req : EntryCreateRequest) : TimeEntry :=
  { id := nextEntryId s.entries, user_id := some uid,
    project_id := req.project_id,
    start_time := if req.travel_morning then req.start_time - 3600 else req.start_time,
    end_time := if req.travel_afternoon then req.end_time + 3600 else req.end_time,
    notes := pyStrip (req.notes.getD ""), travel_morning := req.travel_morning,
    travel_afternoon := req.travel_afternoon }

theorem createEntry_eq (s : AppState) (uid : Int) (req : EntryCreateRequest) :
    createEntry s uid req =
      if (if req.travel_afternoon then req.end_time + 3600 else req.end_time) ≤
          (if req.travel_morning then req.start_time - 3600 else req.start_time)
      then .error .endNotAfterStart
      else .ok (mkCreatedEntry s uid req,
        { s with entries := s.entries ++ [mkCreatedEntry s uid req] }) := rfl

/-- C1: for every entry-creation request with parseable raw times, the stored
start is the raw start minus one hour iff `travel_morning` is set, the stored
end is the raw end plus one hour iff `travel_afternoon` is set (the flags
composing independently), and the entry is created and persisted with those
stored times iff the stored end is strictly after the stored start, otherwise
creation fails with the end-after-start validation error. -/
theorem C1_create_travel_shift (s : AppState) (uid : Int) (req : EntryCreateRequest) :
    (∀ e s', createEntry s uid req = .ok (e, s') →
      e.start_time = (if req.travel_morning then req.start_time - 3600 else req.start_time) ∧
      e.end_time = (if req.travel_afternoon then req.end_time + 3600 else req.end_time) ∧
      s'.entries = s.entries ++ [e]) ∧
    ((∃ e s', createEntry s uid req = .ok (e, s')) ↔
      (if req.travel_morning then req.start_time - 3600 else req.start_time) <
        (if req.travel_afternoon then req.end_time + 3600 else req.end_time)) ∧
    ((if req.travel_afternoon then req.end_time + 3600 else req.end_time) ≤
        (if req.travel_morning then req.start_time - 3600 else req.start_time) →
      createEntry s uid req = .error .endNotAfterStart) := by
  rw [createEntry_eq]
  by_cases h :
      (if req.travel_afternoon then req.end_time + 3600 else req.end_time) ≤
        (if req.travel_morning then req.start_time - 3600 else req.start_time)
  · rw [if_pos h]
    refine ⟨?_, ?_, fun _ => rfl⟩
    · intro e s' he; cases he
    · constructor
      · rintro ⟨e, s', he⟩; cases he
      · intro hc; exact absurd h (not_le.mpr hc)
  · rw [if_neg h]
    refine ⟨?_, ?_, fun hc => absurd hc h⟩
    · rintro e s' he
      injection he with he'
      injection he' with he1 he2
      subst he1; subst he2
      exact ⟨rfl, rfl, rfl⟩
    · constructor
      · intro _; exact lt_of_not_le h
      · intro _; exact ⟨_, _, rfl⟩

/-- The entry stored for the spec example of C1. -/
def c1entry : TimeEntry :=
  ⟨1, some 1, 1, dtm 19724 5 0, dtm 19724 15 30, "", true, true⟩

/-- Witness of C1 at the spec example: project 1, raw start 2024-01-02T06:00,
raw end 2024-01-02T14:30, both travel flags true, yielding stored start 05:00,
stored end 15:30, and a duration of 10.5 hours. -/
theorem C1_create_travel_shift_witness :
    c1entry.start_time = dtm 19724 6 0 - 3600 ∧
    c1entry.end_time = dtm 19724 14 30 + 3600 ∧
    (⟨[], [], [c1entry]⟩ : AppState).entries = emptyState.entries ++ [c1entry] ∧
    c1entry.start_time = dtm 19724 5 0 ∧ c1entry.end_time = dtm 19724 15 30 ∧
    duration_hours c1entry = 21 / 2 := by
  obtain ⟨h1, h2, h3⟩ :=
    (C1_create_travel_shift emptyState 1
      ⟨1, dtm 19724 6 0, dtm 19724 14 30, none, true, true⟩).1 c1entry
      ⟨[], [], [c1entry]⟩ rfl
  exact ⟨h1, h2, h3, rfl, rfl, by norm_num [duration_hours, c1entry, dtm]⟩

/-- Counterexample to C2: the claim says a raw pair with end <= start is
rejected for every flag combination and, in particular, that raw start == end
with exactly one travel flag is rejected; yet the code accepts raw
start == end == 09:00 with only `travel_morning` set, storing an 08:00-09:00
entry (a one-hour span). -/
theorem C2_counterexample :
    (createEntry emptyState 1
        ⟨1, dtm 19724 9 0, dtm 19724 9 0, none, true, false⟩).toOption.map
      (fun r => (r.1.start_time, r.1.end_time)) =
      some (dtm 19724 8 0, dtm 19724 9 0) := by decide

/-- C2 amended: a raw pair with raw end <= raw start and both travel flags
false is always rejected with the end-after-start validation error; validity
is decided on the shifted times only, so a raw entry with start == end is
accepted with exactly one travel flag (one-hour stored span) and with both
flags (two-hour stored span), and rejected only when no flag is set. -/
theorem C2_amended_raw_order (s : AppState) (uid pid : Int) (rs re : Int)
    (h : re ≤ rs) :
    createEntry s uid ⟨pid, rs, re, none, false, false⟩ = .error .endNotAfterStart ∧
    (rs = re →
      (∃ e s', createEntry s uid ⟨pid, rs, re, none, true, false⟩ = .ok (e, s') ∧
        e.end_time - e.start_time = 3600) ∧
      (∃ e s', createEntry s uid ⟨pid, rs, re, none, false, true⟩ = .ok (e, s') ∧
        e.end_time - e.start_time = 3600) ∧
      (∃ e s', createEntry s uid ⟨pid, rs, re, none, true, true⟩ = .ok (e, s') ∧
        e.end_time - e.start_time = 7200)) := by
  constructor
  · rw [createEntry_eq]
    simp only []
    rw [if_pos (by simpa using h)]
  · rintro rfl
    refine ⟨⟨mkCreatedEntry s uid ⟨pid, rs, rs, none, true, false⟩,
        { s with entries := s.entries ++ [mkCreatedEntry s uid ⟨pid, rs, rs, none, true, false⟩] },
        ?_, ?_⟩,
      ⟨mkCreatedEntry s uid ⟨pid, rs, rs, none, false, true⟩,
        { s with entries := s.entries ++ [mkCreatedEntry s uid ⟨pid, rs, rs, none, false, true⟩] },
        ?_, ?_⟩,
      ⟨mkCreatedEntry s uid ⟨pid, rs, rs, none, true, true⟩,
        { s with entries := s.entries ++ [mkCreatedEntry s uid ⟨pid, rs, rs, none, true, true⟩] },
        ?_, ?_⟩⟩
    · rw [createEntry_eq, if_neg (by simp)]
    · simp [mkCreatedEntry]
    · rw [createEntry_eq, if_neg (by simp)]
    · simp [mkCreatedEntry]
    · rw [createEntry_eq, if_neg (by simp; omega)]
    · simp [mkCreatedEntry]

/-- Witness of C2 (amended) at raw start = end = 0: one flag accepts with a
one-hour stored span, no flags rejects. -/
theorem C2_amended_raw_order_witness :
    (∃ e s', createEntry emptyState 1 ⟨1, 0, 0, none, true, false⟩ = .ok (e, s') ∧
      e.end_time - e.start_time = 3600) ∧
    createEntry emptyState 1 ⟨1, 0, 0, none, false, false⟩ = .error .endNotAfterStart :=
  ⟨((C2_amended_raw_order emptyState 1 1 0 0 (le_refl 0)).2 rfl).1,
    (C2_amended_raw_order emptyState 1 1 0 0 (le_refl 0)).1⟩

theorem maxOfList_eq_none {l : List Int} : maxOfList l = none ↔ l = [] := by
  cases l with
  | nil => simp [maxOfList]
  | cons x xs =>
    simp only [maxOfList]
    cases h : maxOfList xs <;> simp

theorem maxOfList_mem : ∀ {l : List Int} {m : Int}, maxOfList l = some m → m ∈ l := by
  intro l
  induction l with
  | nil => intro m h; cases h
  | cons x xs ih =>
    intro m h
    rw [maxOfList] at h
    cases hxs : maxOfList xs with
    | none => rw [hxs] at h; injection h with h; exact h ▸ List.mem_cons_self x xs
    | some m' =>
      rw [hxs] at h
      injection h with h
      rcases max_choice x m' with hc | hc
      · rw [← h, hc]; exact List.mem_cons_self x xs
      · rw [← h, hc]; exact List.mem_cons_of_mem x (ih hxs)

theorem le_maxOfList : ∀ {l : List Int} {m : Int}, maxOfList l = some m →
    ∀ x ∈ l, x ≤ m := by
  intro l
  induction l with
  | nil => intro m _ x hx; cases hx
  | cons y ys ih =>
    intro m h x hx
    rw [maxOfList] at h
    cases hys : maxOfList ys with
    | none =>
      rw [hys] at h; injection h with h
      rcases List.mem_cons.mp hx with rfl | hx'
      · exact h.le
      · exact absurd hx' (by simp [maxOfList_eq_none.mp hys])
    | some m' =>
      rw [hys] at h; injection h with h
      rcases List.mem_cons.mp hx with rfl | hx'
      · exact h ▸ le_max_left x m'
      · exact le_trans (ih hys x hx') (h ▸ le_max_right y m')

theorem maxOfList_eq_some {l : List Int} {m : Int} (hm : m ∈ l)
    (hub : ∀ x ∈ l, x ≤ m) : maxOfList l = some m := by
  cases hml : maxOfList l with
  | none =>
    rw [maxOfList_eq_none] at hml
    exact absurd hm (by simp [hml])
  | some m' =>
    have h1 : m' ≤ m := hub m' (maxOfList_mem hml)
    have h2 : m ≤ m' := le_maxOfList hml m hm
    rw [le_antisymm h1 h2]

/-- Unfolding of the Boolean window filter into propositions. -/
theorem inWindow_iff (division : String) (p : Project) :
    inWindow division p = true ↔
      p.division = division ∧ divisionBase division ≤ p.prefixNum ∧
        p.prefixNum < divisionBase division + 1000 := by
  simp [inWindow, and_assoc]

/-- C3: for every valid division the allocator returns the division's window
base (1000 for Melbourne Power, 2000 for Liquid Pack) when no project of that
division has a prefix inside `[base, base + 1000)`, or when the maximum such
prefix is below the base; otherwise it returns that maximum plus one.  The
allocator is a pure read by construction: it is a function of the project
table returning an integer and touching no state. -/
theorem C3_allocator_window (projects : List Project) (division : String)
    (_hdiv : division = "Melbourne Power" ∨ division = "Liquid Pack") :
    ((division = "Melbourne Power" → divisionBase division = 1000) ∧
      (division = "Liquid Pack" → divisionBase division = 2000)) ∧
    ((∀ p ∈ projects, ¬(p.division = division ∧ divisionBase division ≤ p.prefixNum ∧
        p.prefixNum < divisionBase division + 1000)) →
      nextProjectPrefix projects division = divisionBase division) ∧
    (∀ m : Int, ∀ p ∈ projects,
      p.division = division → divisionBase division ≤ p.prefixNum →
      p.prefixNum < divisionBase division + 1000 → p.prefixNum = m →
      (∀ q ∈ projects, q.division = division → divisionBase division ≤ q.prefixNum →
        q.prefixNum < divisionBase division + 1000 → q.prefixNum ≤ m) →
      nextProjectPrefix projects division =
        if m < divisionBase division then divisionBase division else m + 1) := by
  refine ⟨⟨fun h => by rw [h]; decide, fun h => by rw [h]; decide⟩, ?_, ?_⟩
  · intro hnone
    have hfil : projects.filter (inWindow division) = [] := by
      rw [List.filter_eq_nil_iff]
      intro p hp
      rw [inWindow_iff]
      exact hnone p hp
    unfold nextProjectPrefix windowMaxPrefix
    rw [hfil]
    simp [maxOfList]
  · intro m p hp hdv hlo hhi hpm hub
    have hmem : m ∈ (projects.filter (inWindow division)).map (fun q => q.prefixNum) := by
      rw [List.mem_map]
      refine ⟨p, ?_, hpm⟩
      rw [List.mem_filter]
      exact ⟨hp, (inWindow_iff division p).mpr ⟨hdv, hlo, hhi⟩⟩
    have hub' : ∀ x ∈ (projects.filter (inWindow division)).map (fun q => q.prefixNum),
        x ≤ m := by
      intro x hx
      rw [List.mem_map] at hx
      obtain ⟨q, hq, rfl⟩ := hx
      rw [List.mem_filter] at hq
      obtain ⟨hq1, hq2⟩ := hq
      rw [inWindow_iff] at hq2
      exact hub q hq1 hq2.1 hq2.2.1 hq2.2.2
    unfold nextProjectPrefix windowMaxPrefix
    rw [maxOfList_eq_some hmem hub']

/-- Witness of C3: with one Melbourne Power project at prefix 1000, the next
Melbourne Power prefix is 1001; with none in the Liquid Pack window, the next
Liquid Pack prefix is the base 2000. -/
theorem C3_allocator_window_witness :
    nextProjectPrefix [⟨1, "A", 1000, "Melbourne Power", true⟩] "Melbourne Power" =
      (if (1000 : Int) < divisionBase "Melbourne Power"
        then divisionBase "Melbourne Power" else 1000 + 1) ∧
    nextProjectPrefix [⟨1, "A", 1000, "Melbourne Power", true⟩] "Liquid Pack" =
      divisionBase "Liquid Pack" := by
  constructor
  · exact (C3_allocator_window [⟨1, "A", 1000, "Melbourne Power", true⟩] "Melbourne Power"
      (Or.inl rfl)).2.2 1000 ⟨1, "A", 1000, "Melbourne Power", true⟩
      (List.mem_singleton.mpr rfl) rfl (by decide) (by decide) rfl
      (by intro q hq h1 h2 h3; obtain rfl := List.mem_singleton.mp hq; decide)
  · exact (C3_allocator_window [⟨1, "A", 1000, "Melbourne Power", true⟩] "Liquid Pack"
      (Or.inr rfl)).2.1
      (by intro p hp; obtain rfl := List.mem_singleton.mp hp; decide)

/-- A project-creation request with a title and division but no explicit
prefix (the auto-allocation path). -/
def autoReq (division : String) : ProjectRequest :=
  ⟨some "P", some division, .absent⟩

/-- Repeatedly `POST /api/projects` without an explicit prefix, starting from
an empty project table (each step keeps the old table if creation fails). -/
def autoCreateN (division : String) : Nat → List Project
  | 0 => []
  | n + 1 =>
    let prev := autoCreateN division n
    match createProject prev (autoReq division) with
    | .ok r => r.2
    | .error _ => prev

/-- The i-th project produced by the auto-allocation loop. -/
def autoProj (division : String) (i : Nat) : Project :=
  { id := (i : Int) + 1, title := "P", prefixNum := divisionBase division + i,
    division := division, is_active := true }

/-- The expected project table after n auto-allocating creations. -/
def autoTable (division : String) (n : Nat) : List Project :=
  (List.range n).map (autoProj division)

theorem maxOfList_concat (l : List Int) (x : Int) :
    maxOfList (l ++ [x]) =
      some (match maxOfList l with | none => x | some m => max m x) := by
  induction l with
  | nil => rfl
  | cons y ys ih =>
    show maxOfList (y :: (ys ++ [x])) = _
    rw [maxOfList, ih]
    cases hys : maxOfList ys with
    | none => simp [maxOfList, hys]
    | some m => simp [maxOfList, hys, max_assoc]

theorem autoTable_succ (division : String) (n : Nat) :
    autoTable division (n + 1) = autoTable division n ++ [autoProj division n] := by
  unfold autoTable
  rw [List.range_succ, List.map_append, List.map_singleton]

theorem filter_autoTable (division : String) (n : Nat) (hn : n ≤ 1000) :
    (autoTable division n).filter (inWindow division) = autoTable division n := by
  rw [List.filter_eq_self]
  intro p hp
  rw [autoTable, List.mem_map] at hp
  obtain ⟨i, hi, rfl⟩ := hp
  rw [List.mem_range] at hi
  rw [inWindow_iff]
  refine ⟨rfl, by simp [autoProj], ?_⟩
  simp only [autoProj]
  have : (i : Int) < 1000 := by exact_mod_cast lt_of_lt_of_le hi hn
  omega

theorem maxOfList_autoTable (division : String) (n : Nat) :
    maxOfList ((autoTable division n).map (fun p => p.prefixNum)) =
      if n = 0 then none
      else some (divisionBase division + (n - 1 : Nat)) := by
  induction n with
  | zero => rfl
  | succ k ih =>
    rw [autoTable_succ, List.map_append, List.map_singleton, maxOfList_concat, ih]
    cases k with
    | zero => simp [autoProj]
    | succ j =>
      simp only [Nat.succ_ne_zero, if_false, Nat.add_sub_cancel]
      have h2 : (autoProj division (j + 1)).prefixNum =
          divisionBase division + ((j : Int) + 1) := by simp [autoProj]
      rw [h2, max_eq_right (by omega : divisionBase division + (j : Int) ≤
        divisionBase division + ((j : Int) + 1))]
      push_cast
      ring_nf

theorem nextProjectPrefix_autoTable (division : String) (n : Nat) (hn : n ≤ 1000) :
    nextProjectPrefix (autoTable division n) division = divisionBase division + n := by
  unfold nextProjectPrefix windowMaxPrefix
  rw [filter_autoTable division n hn, maxOfList_autoTable]
  cases n with
  | zero => simp
  | succ k =>
    simp only [Nat.succ_ne_zero, if_false, Nat.add_sub_cancel]
    rw [if_neg (by omega)]
    push_cast
    ring

theorem nextProjectId_autoTable (division : String) (n : Nat) :
    nextProjectId (autoTable division n) = (n : Int) + 1 := by
  unfold nextProjectId
  suffices h : (autoTable division n).foldl (fun m p => max m p.id) 0 = (n : Int) by
    rw [h]
  induction n with
  | zero => rfl
  | succ k ih =>
    rw [autoTable_succ, List.foldl_append, ih]
    show max (k : Int) ((autoProj division k).id) = _
    simp only [autoProj]
    push_cast
    omega

theorem resolvedDivision_autoReq (division : String)
    (hD : division = "Melbourne Power" ∨ division = "Liquid Pack") :
    resolvedDivision (autoReq division) = division := by
  rcases hD with rfl | rfl <;> decide

/-- The row inserted by a successful `POST /api/projects` with prefix n. -/
def mkCreatedProject (projects : List Project) (req : ProjectRequest) (n : Int) :
    Project :=
  { id := nextProjectId projects, title := pyStrip (req.title.getD ""),
    prefixNum := n, division := resolvedDivision req, is_active := true }

theorem createProject_noPrefix (projects : List Project) (req : ProjectRequest)
    (h1 : validDivision (resolvedDivision req) = true)
    (h2 : (pyStrip (req.title.getD "") == "") = false)
    (h3 : req.prefixField = .absent ∨ req.prefixField = .emptyStr)
    (hcol : projects.any (fun p =>
      p.prefixNum == nextProjectPrefix projects (resolvedDivision req)) = false) :
    createProject projects req =
      .ok (mkCreatedProject projects req
          (nextProjectPrefix projects (resolvedDivision req)),
        projects ++ [mkCreatedProject projects req
          (nextProjectPrefix projects (resolvedDivision req))]) := by
  unfold createProject
  rcases h3 with h3 | h3 <;>
    (rw [h3]; simp only [h1, h2]; rw [if_neg (by simp)]; rw [if_neg (by simp)];
      rw [if_neg (by simp [hcol])]; rfl)

theorem createProject_noPrefix_collision (projects : List Project)
    (req : ProjectRequest)
    (h1 : validDivision (resolvedDivision req) = true)
    (h2 : (pyStrip (req.title.getD "") == "") = false)
    (h3 : req.prefixField = .absent ∨ req.prefixField = .emptyStr)
    (hcol : projects.any (fun p =>
      p.prefixNum == nextProjectPrefix projects (resolvedDivision req)) = true) :
    createProject projects req = .error .integrityError := by
  unfold createProject
  rcases h3 with h3 | h3 <;>
    (rw [h3]; simp only [h1, h2]; rw [if_neg (by simp)]; rw [if_neg (by simp)];
      rw [if_pos hcol])

theorem createProject_auto_step (division : String)
    (hD : division = "Melbourne Power" ∨ division = "Liquid Pack")
    (n : Nat) (hn : n ≤ 1000) :
    createProject (autoTable division n) (autoReq division) =
      .ok (autoProj division n,
        autoTable division n ++ [autoProj division n]) := by
  have hres := resolvedDivision_autoReq division hD
  have h1 : validDivision (resolvedDivision (autoReq division)) = true := by
    rw [hres]; rcases hD with rfl | rfl <;> decide
  have h2 : (pyStrip ((autoReq division).title.getD "") == "") = false := rfl
  have h4 : pyStrip ((autoReq division).title.getD "") = "P" := rfl
  have hcol : (autoTable division n).any (fun p => p.prefixNum ==
      nextProjectPrefix (autoTable division n) (resolvedDivision (autoReq division))) =
      false := by
    rw [hres, nextProjectPrefix_autoTable division n hn, List.any_eq_false]
    intro p hp
    rw [autoTable, List.mem_map] at hp
    obtain ⟨i, hi, rfl⟩ := hp
    rw [List.mem_range] at hi
    intro hc
    have hc2 : divisionBase division + (i : Int) = divisionBase division + (n : Int) :=
      beq_iff_eq.mp hc
    have hin : (i : Int) = (n : Int) := add_left_cancel hc2
    exact absurd hin (by exact_mod_cast Nat.ne_of_lt hi)
  rw [createProject_noPrefix _ _ h1 h2 (Or.inl rfl) hcol]
  have hcr : mkCreatedProject (autoTable division n) (autoReq division)
      (nextProjectPrefix (autoTable division n) (resolvedDivision (autoReq division))) =
      autoProj division n := by
    unfold mkCreatedProject autoProj
    rw [hres, h4, nextProjectPrefix_autoTable division n hn,
      nextProjectId_autoTable division n]
  rw [hcr]

theorem autoCreateN_eq (division : String)
    (hD : division = "Melbourne Power" ∨ division = "Liquid Pack") :
    ∀ n : Nat, n ≤ 1001 → autoCreateN division n = autoTable division n := by
  intro n
  induction n with
  | zero => intro _; rfl
  | succ k ih =>
    intro hk
    have hk1000 : k ≤ 1000 := by omega
    show (match createProject (autoCreateN division k) (autoReq division) with
      | .ok r => r.2
      | .error _ => autoCreateN division k) = _
    rw [ih (by omega), createProject_auto_step division hD k hk1000,
      autoTable_succ]

/-- C4 amended: for every valid division D and every N up to the window width
of 1000, creating N projects in D without explicit prefixes yields N distinct
sequential prefixes starting at D's base, each inside D's 1000-wide window;
at N = 1001 the allocator escapes the window (see the counterexample). -/
theorem C4_amended_sequential (division : String)
    (hD : division = "Melbourne Power" ∨ division = "Liquid Pack")
    (n : Nat) (hn : n ≤ 1000) :
    ((autoCreateN division n).map (fun p => p.prefixNum) =
      (List.range n).map (fun (i : Nat) => divisionBase division + (i : Int))) ∧
    ((autoCreateN division n).map (fun p => p.prefixNum)).Nodup ∧
    (∀ p ∈ autoCreateN division n,
      divisionBase division ≤ p.prefixNum ∧
        p.prefixNum < divisionBase division + 1000) := by
  have hchar := autoCreateN_eq division hD n (by omega)
  have hmap : (autoCreateN division n).map (fun p => p.prefixNum) =
      (List.range n).map (fun (i : Nat) => divisionBase division + (i : Int)) := by
    rw [hchar]
    unfold autoTable
    rw [List.map_map]
    rfl
  refine ⟨hmap, ?_, ?_⟩
  · rw [hmap]
    exact (List.nodup_range n).map (fun a b h => by omega)
  · intro p hp
    rw [hchar] at hp
    unfold autoTable at hp
    rw [List.mem_map] at hp
    obtain ⟨i, hi, rfl⟩ := hp
    rw [List.mem_range] at hi
    simp only [autoProj]
    have : (i : Int) < 1000 := by exact_mod_cast lt_of_lt_of_le hi hn
    omega

/-- Witness of C4 (amended) at division Melbourne Power, N = 3: prefixes
1000, 1001, 1002, distinct, inside the window. -/
theorem C4_amended_sequential_witness :
    ((autoCreateN "Melbourne Power" 3).map (fun p => p.prefixNum) =
      (List.range 3).map (fun (i : Nat) => divisionBase "Melbourne Power" + (i : Int))) ∧
    ((autoCreateN "Melbourne Power" 3).map (fun p => p.prefixNum)).Nodup ∧
    (∀ p ∈ autoCreateN "Melbourne Power" 3,
      divisionBase "Melbourne Power" ≤ p.prefixNum ∧
        p.prefixNum < divisionBase "Melbourne Power" + 1000) :=
  C4_amended_sequential "Melbourne Power" (Or.inl rfl) 3 (by omega)

/-- Counterexample to C4: the claim quantifies over every N, but the 1001st
auto-created Melbourne Power project receives prefix 2000, which is outside
the division window [1000, 2000). -/
theorem C4_counterexample :
    ((autoCreateN "Melbourne Power" 1001).map (fun p => p.prefixNum)).getLast? =
      some 2000 ∧
    ¬ ((2000 : Int) < divisionBase "Melbourne Power" + 1000) := by
  constructor
  · rw [autoCreateN_eq "Melbourne Power" (Or.inl rfl) 1001 (le_refl _)]
    rw [show (1001 : Nat) = 1000 + 1 from rfl, autoTable_succ, List.map_append,
      List.map_singleton, List.getLast?_concat]
    decide
  · decide

theorem validDivision_iff (d : String) :
    validDivision d = true ↔ d = "Melbourne Power" ∨ d = "Liquid Pack" := by
  simp [validDivision]

theorem createProject_intVal (projects : List Project) (req : ProjectRequest)
    (n : Int) (h3 : req.prefixField = .intVal n) :
    createProject projects req =
      if ¬ validDivision (resolvedDivision req) then .error .invalidDivision
      else if pyStrip (req.title.getD "") == "" then .error .titleRequired
      else if resolvedDivision req ≠ "Liquid Pack" then .error .customPrefixOnlyLiquidPack
      else if n ≤ 0 then .error .prefixNotPositive
      else if 2000 ≤ n ∧ n < 3000 then .error .prefixReserved
      else if projects.any (fun p => p.prefixNum == n) then .error .prefixExists
      else if projects.any (fun p => p.prefixNum == n) then .error .integrityError
      else .ok (mkCreatedProject projects req n,
        projects ++ [mkCreatedProject projects req n]) := by
  unfold createProject
  rw [h3]
  rfl

theorem createProject_malformed (projects : List Project) (req : ProjectRequest)
    (h3 : req.prefixField = .malformed) :
    createProject projects req =
      if ¬ validDivision (resolvedDivision req) then .error .invalidDivision
      else if pyStrip (req.title.getD "") == "" then .error .titleRequired
      else if resolvedDivision req ≠ "Liquid Pack" then .error .customPrefixOnlyLiquidPack
      else .error .prefixNotInteger := by
  unfold createProject
  rw [h3]

/-- Counterexample to C5: for the request (title "", division Liquid Pack,
explicit prefix 5000) every condition of the claim holds — the division is
Liquid Pack, 5000 is a positive integer outside [2000, 3000), and no existing
project carries it — yet creation fails, with the title validation error. -/
theorem C5_counterexample :
    createProject [] ⟨some "", some "Liquid Pack", .intVal 5000⟩ =
      .error .titleRequired ∧
    resolvedDivision ⟨some "", some "Liquid Pack", .intVal 5000⟩ = "Liquid Pack" ∧
    (0 : Int) < 5000 ∧ ¬((2000 : Int) ≤ 5000 ∧ (5000 : Int) < 3000) ∧
    ∀ q ∈ ([] : List Project), q.prefixNum ≠ 5000 := by
  refine ⟨rfl, by decide, by decide, by decide, ?_⟩
  intro q hq
  cases hq

/-- C5 amended: given a title that is nonempty after trimming, project
creation with an explicit (non-empty) prefix field succeeds iff the division
resolves to Liquid Pack and the prefix parses as a positive integer outside
[2000, 3000) colliding with no existing project of either division; every
other such request fails, and a successful creation stores exactly the
requested prefix under division Liquid Pack. -/
theorem C5_amended_custom_prefix (projects : List Project) (req : ProjectRequest)
    (htitle : pyStrip (req.title.getD "") ≠ "")
    (hexp : req.prefixField ≠ .absent ∧ req.prefixField ≠ .emptyStr) :
    ((∃ p l, createProject projects req = .ok (p, l)) ↔
      (resolvedDivision req = "Liquid Pack" ∧
        ∃ n : Int, req.prefixField = .intVal n ∧ 0 < n ∧
          ¬(2000 ≤ n ∧ n < 3000) ∧ ∀ q ∈ projects, q.prefixNum ≠ n)) ∧
    (∀ p l, createProject projects req = .ok (p, l) →
      ∃ n : Int, req.prefixField = .intVal n ∧ p.prefixNum = n ∧
        p.division = "Liquid Pack") := by
  have htitle' : (pyStrip (req.title.getD "") == "") = false := by
    simp [htitle]
  cases hpf : req.prefixField with
  | absent => exact absurd hpf hexp.1
  | emptyStr => exact absurd hpf hexp.2
  | malformed =>
    rw [createProject_malformed projects req hpf]
    split_ifs with h1 h2 h3
    all_goals
      refine ⟨⟨(fun ⟨p, l, hok⟩ => by cases hok), fun hr => ?_⟩,
        (fun p l hok => by cases hok)⟩
    all_goals
      obtain ⟨-, m, hm, -⟩ := hr
      cases hm
  | intVal n =>
    rw [createProject_intVal projects req n hpf]
    by_cases h1 : ¬ validDivision (resolvedDivision req) = true
    · rw [if_pos h1]
      have hne : resolvedDivision req ≠ "Liquid Pack" := fun hc =>
        h1 ((validDivision_iff _).mpr (Or.inr hc))
      exact ⟨⟨(fun ⟨p, l, hok⟩ => by cases hok), fun hr => absurd hr.1 hne⟩,
        (fun p l hok => by cases hok)⟩
    · rw [if_neg h1, if_neg (by simp [htitle'])]
      by_cases h3 : resolvedDivision req ≠ "Liquid Pack"
      · rw [if_pos h3]
        exact ⟨⟨(fun ⟨p, l, hok⟩ => by cases hok), fun hr => absurd hr.1 h3⟩,
          (fun p l hok => by cases hok)⟩
      · rw [if_neg h3]
        push_neg at h3
        by_cases h4 : n ≤ 0
        · rw [if_pos h4]
          refine ⟨⟨(fun ⟨p, l, hok⟩ => by cases hok), fun hr => ?_⟩,
            (fun p l hok => by cases hok)⟩
          obtain ⟨-, m, hm, hmpos, -⟩ := hr
          injection hm with hm
          exact absurd hmpos (by omega)
        · rw [if_neg h4]
          by_cases h5 : 2000 ≤ n ∧ n < 3000
          · rw [if_pos h5]
            refine ⟨⟨(fun ⟨p, l, hok⟩ => by cases hok), fun hr => ?_⟩,
              (fun p l hok => by cases hok)⟩
            obtain ⟨-, m, hm, -, hmres, -⟩ := hr
            injection hm with hm
            exact (hmres (hm ▸ h5)).elim
          · rw [if_neg h5]
            by_cases h6 : projects.any (fun p => p.prefixNum == n) = true
            · rw [if_pos h6]
              refine ⟨⟨(fun ⟨p, l, hok⟩ => by cases hok), fun hr => ?_⟩,
                (fun p l hok => by cases hok)⟩
              obtain ⟨-, m, hm, -, -, hnocol⟩ := hr
              injection hm with hm
              rw [List.any_eq_true] at h6
              obtain ⟨q, hq, hbeq⟩ := h6
              exact (hnocol q hq (hm ▸ beq_iff_eq.mp hbeq)).elim
            · rw [if_neg h6, if_neg h6]
              constructor
              · constructor
                · intro _
                  refine ⟨h3, n, rfl, by omega, h5, ?_⟩
                  intro q hq hc
                  exact h6 (List.any_eq_true.mpr ⟨q, hq, beq_iff_eq.mpr hc⟩)
                · intro _
                  exact ⟨_, _, rfl⟩
              · intro p l hok
                injection hok with hok
                injection hok with hok1 hok2
                refine ⟨n, rfl, ?_, ?_⟩
                · rw [← hok1]; rfl
                · rw [← hok1]; exact h3

/-- The concrete explicit-prefix request used by the C5 witness. -/
def c5req : ProjectRequest := ⟨some "T", some "Liquid Pack", .intVal 5000⟩

/-- Witness of C5 (amended) at an empty table and the request c5req. -/
theorem C5_amended_custom_prefix_witness :
    ((∃ p l, createProject [] c5req = .ok (p, l)) ↔
      (resolvedDivision c5req = "Liquid Pack" ∧
        ∃ n : Int, c5req.prefixField = .intVal n ∧ 0 < n ∧
          ¬(2000 ≤ n ∧ n < 3000) ∧ ∀ q ∈ ([] : List Project), q.prefixNum ≠ n)) ∧
    (∀ p l, createProject [] c5req = .ok (p, l) →
      ∃ n : Int, c5req.prefixField = .intVal n ∧ p.prefixNum = n ∧
        p.division = "Liquid Pack") :=
  C5_amended_custom_prefix [] c5req (by decide) ⟨by decide, by decide⟩

theorem softDeleteRow_id (pid : Int) (p : Project) :
    (softDeleteRow pid p).id = p.id := by
  unfold softDeleteRow; split <;> rfl

theorem softDeleteRow_title (pid : Int) (p : Project) :
    (softDeleteRow pid p).title = p.title := by
  unfold softDeleteRow; split <;> rfl

theorem softDeleteRow_prefixNum (pid : Int) (p : Project) :
    (softDeleteRow pid p).prefixNum = p.prefixNum := by
  unfold softDeleteRow; split <;> rfl

theorem softDeleteRow_division (pid : Int) (p : Project) :
    (softDeleteRow pid p).division = p.division := by
  unfold softDeleteRow; split <;> rfl

theorem softDeleteRow_idem (pid : Int) (p : Project) :
    softDeleteRow pid (softDeleteRow pid p) = softDeleteRow pid p := by
  unfold softDeleteRow
  by_cases h : p.id == pid <;> simp [h]

theorem exportRow_delete (s : AppState) (pid : Int) (e : TimeEntry) :
    exportRow { s with projects := s.projects.map (softDeleteRow pid) } e =
      exportRow s e := by
  simp only [exportRow]
  rw [List.find?_map]
  have hcomp : ((fun p => p.id == e.project_id) ∘ softDeleteRow pid) =
      (fun p => p.id == e.project_id) := by
    funext p
    simp [Function.comp, softDeleteRow_id]
  rw [hcomp, Option.map_map, Option.map_map, Option.map_map]
  have h1 : (Project.prefixNum ∘ softDeleteRow pid) = Project.prefixNum :=
    funext (softDeleteRow_prefixNum pid)
  have h2 : (Project.title ∘ softDeleteRow pid) = Project.title :=
    funext (softDeleteRow_title pid)
  have h3 : (Project.division ∘ softDeleteRow pid) = Project.division :=
    funext (softDeleteRow_division pid)
  rw [h1, h2, h3]

/-- C6: a successful soft delete flips `is_active` to false on the target and
changes no other project field, no user and no time entry; deleting again
succeeds with the identical state (idempotent); and the entry listing and the
CSV export are unchanged by the deletion. -/
theorem C6_soft_delete (s : AppState) (pid : Int) (s' : AppState)
    (h : deleteProject s pid = .ok s') :
    s'.users = s.users ∧ s'.entries = s.entries ∧
    s'.projects.map (fun p => (p.id, p.title, p.prefixNum, p.division)) =
      s.projects.map (fun p => (p.id, p.title, p.prefixNum, p.division)) ∧
    (∀ p ∈ s'.projects, p.id = pid → p.is_active = false) ∧
    (∀ p ∈ s.projects, p.id ≠ pid → p ∈ s'.projects) ∧
    deleteProject s' pid = .ok s' ∧
    (∀ q : EntryListQuery, listEntries s'.entries q = listEntries s.entries q) ∧
    (∀ pf : Option Int, exportRows s' pf = exportRows s pf) := by
  unfold deleteProject at h
  by_cases hany : s.projects.any (fun p => p.id == pid) = true
  · rw [if_pos hany] at h
    injection h with h
    subst h
    have hcomp : ((fun p => p.id == pid) ∘ softDeleteRow pid) =
        (fun p => p.id == pid) := by
      funext p
      simp [Function.comp, softDeleteRow_id]
    refine ⟨rfl, rfl, ?_, ?_, ?_, ?_, fun q => rfl, fun pf => ?_⟩
    · rw [List.map_map]
      refine List.map_congr_left ?_
      intro p _
      simp [Function.comp, softDeleteRow_id, softDeleteRow_title,
        softDeleteRow_prefixNum, softDeleteRow_division]
    · intro p hp hid
      rw [List.mem_map] at hp
      obtain ⟨q, hq, rfl⟩ := hp
      rw [softDeleteRow_id] at hid
      unfold softDeleteRow
      rw [if_pos (beq_iff_eq.mpr hid)]
    · intro p hp hne
      refine List.mem_map.mpr ⟨p, hp, ?_⟩
      simp [softDeleteRow, hne]
    · unfold deleteProject
      rw [if_pos (by rw [List.any_map, hcomp]; exact hany)]
      rw [List.map_map]
      rw [show softDeleteRow pid ∘ softDeleteRow pid = softDeleteRow pid from
        funext (softDeleteRow_idem pid)]
    · unfold exportRows
      exact List.map_congr_left (fun e _ => exportRow_delete s pid e)
  · rw [if_neg hany] at h
    cases h

/-- Concrete one-project state for the C6 witness. -/
def c6state : AppState :=
  ⟨[⟨1, "u"⟩], [⟨1, "A", 1000, "Melbourne Power", true⟩],
    [⟨1, some 1, 1, 0, 3600, "", false, false⟩]⟩

/-- The state after soft-deleting project 1 in c6state. -/
def c6stateAfter : AppState :=
  ⟨[⟨1, "u"⟩], [⟨1, "A", 1000, "Melbourne Power", false⟩],
    [⟨1, some 1, 1, 0, 3600, "", false, false⟩]⟩

/-- Witness of C6 at the one-project state c6state. -/
theorem C6_soft_delete_witness :
    deleteProject c6state 1 = .ok c6stateAfter ∧
    (c6stateAfter.users = c6state.users ∧ c6stateAfter.entries = c6state.entries ∧
    c6stateAfter.projects.map (fun p => (p.id, p.title, p.prefixNum, p.division)) =
      c6state.projects.map (fun p => (p.id, p.title, p.prefixNum, p.division)) ∧
    (∀ p ∈ c6stateAfter.projects, p.id = 1 → p.is_active = false) ∧
    (∀ p ∈ c6state.projects, p.id ≠ 1 → p ∈ c6stateAfter.projects) ∧
    deleteProject c6stateAfter 1 = .ok c6stateAfter ∧
    (∀ q : EntryListQuery,
      listEntries c6stateAfter.entries q = listEntries c6state.entries q) ∧
    (∀ pf : Option Int, exportRows c6stateAfter pf = exportRows c6state pf)) :=
  ⟨rfl, C6_soft_delete c6state 1 c6stateAfter rfl⟩

/-- The row resulting from a successful `PUT /api/entries/<id>` on `entry`:
travel flags from the request (defaulting to the stored flags), times from
the request (defaulting to the currently stored, already-shifted times), and
the travel shift re-applied with the new flags. -/
def mkUpdatedEntry (entry : TimeEntry) (req : EntryUpdateRequest) : TimeEntry :=
  { id := entry.id,
    user_id := entry.user_id,
    project_id := req.project_id.getD entry.project_id,
    notes := match req.notes with | some t => pyStrip t | none => entry.notes,
    travel_morning := req.travel_morning.getD entry.travel_morning,
    travel_afternoon := req.travel_afternoon.getD entry.travel_afternoon,
    start_time := if req.travel_morning.getD entry.travel_morning
      then req.start_time.getD entry.start_time - 3600
      else req.start_time.getD entry.start_time,
    end_time := if req.travel_afternoon.getD entry.travel_afternoon
      then req.end_time.getD entry.end_time + 3600
      else req.end_time.getD entry.end_time }

theorem updateEntry_eq (s : AppState) (eid : Int) (req : EntryUpdateRequest)
    (entry : TimeEntry)
    (hfind : s.entries.find? (fun e => e.id == eid) = some entry) :
    updateEntry s eid req =
      if (mkUpdatedEntry entry req).end_time ≤ (mkUpdatedEntry entry req).start_time
      then .error .endNotAfterStart
      else .ok (mkUpdatedEntry entry req,
        { s with entries := s.entries.map (fun e =>
            if e.id == eid then mkUpdatedEntry entry req else e) }) := by
  unfold updateEntry
  rw [hfind]
  rfl

/-- C7: on entry update, travel flags present in the request take effect
before the shift is recomputed, and an unsupplied time defaults to the
currently stored (already-shifted) value: the resulting stored start is the
defaulted start minus one hour iff the new `travel_morning` is set, likewise
for the end and `travel_afternoon`; the update succeeds iff the re-shifted
end exceeds the re-shifted start and otherwise fails with the same
validation error as creation. -/
theorem C7_update_reshift (s : AppState) (eid : Int) (req : EntryUpdateRequest)
    (entry : TimeEntry)
    (hfind : s.entries.find? (fun e => e.id == eid) = some entry) :
    (∀ e' s', updateEntry s eid req = .ok (e', s') →
      e'.travel_morning = req.travel_morning.getD entry.travel_morning ∧
      e'.travel_afternoon = req.travel_afternoon.getD entry.travel_afternoon ∧
      e'.start_time = (if req.travel_morning.getD entry.travel_morning
        then req.start_time.getD entry.start_time - 3600
        else req.start_time.getD entry.start_time) ∧
      e'.end_time = (if req.travel_afternoon.getD entry.travel_afternoon
        then req.end_time.getD entry.end_time + 3600
        else req.end_time.getD entry.end_time)) ∧
    ((∃ e' s', updateEntry s eid req = .ok (e', s')) ↔
      (if req.travel_morning.getD entry.travel_morning
        then req.start_time.getD entry.start_time - 3600
        else req.start_time.getD entry.start_time) <
      (if req.travel_afternoon.getD entry.travel_afternoon
        then req.end_time.getD entry.end_time + 3600
        else req.end_time.getD entry.end_time)) ∧
    ((if req.travel_afternoon.getD entry.travel_afternoon
        then req.end_time.getD entry.end_time + 3600
        else req.end_time.getD entry.end_time) ≤
      (if req.travel_morning.getD entry.travel_morning
        then req.start_time.getD entry.start_time - 3600
        else req.start_time.getD entry.start_time) →
      updateEntry s eid req = .error .endNotAfterStart) := by
  rw [updateEntry_eq s eid req entry hfind]
  by_cases h : (mkUpdatedEntry entry req).end_time ≤ (mkUpdatedEntry entry req).start_time
  · rw [if_pos h]
    refine ⟨?_, ?_, fun _ => rfl⟩
    · intro e' s' hok; cases hok
    · constructor
      · rintro ⟨e', s', hok⟩; cases hok
      · intro hc; exact absurd (not_le.mpr hc) (by exact fun hn => hn h)
  · rw [if_neg h]
    refine ⟨?_, ?_, fun hc => absurd hc h⟩
    · intro e' s' hok
      injection hok with hok
      injection hok with hok1 hok2
      subst hok1; subst hok2
      exact ⟨rfl, rfl, rfl, rfl⟩
    · constructor
      · intro _; exact lt_of_not_le h
      · intro _; exact ⟨_, _, rfl⟩

/-- The stored entry used by the C7 and C10 witnesses: stored 02:00-10:00,
no travel flags. -/
def c7entry : TimeEntry := ⟨1, some 1, 1, 7200, 36000, "", false, false⟩

/-- State holding only c7entry. -/
def c7state : AppState := ⟨[], [], [c7entry]⟩

/-- A flags-only update request: set `travel_morning`, supply no times. -/
def c7req : EntryUpdateRequest := ⟨none, none, some true, none, none, none, none⟩

/-- The entry after the flags-only update of the C7 witness. -/
def c7entryAfter : TimeEntry := ⟨1, some 1, 1, 3600, 36000, "", true, false⟩

/-- Witness of C7: toggling only `travel_morning` on c7entry re-shifts the
already-stored start by a further hour (7200 becomes 3600). -/
theorem C7_update_reshift_witness :
    (c7entryAfter.travel_morning = c7req.travel_morning.getD c7entry.travel_morning ∧
      c7entryAfter.travel_afternoon =
        c7req.travel_afternoon.getD c7entry.travel_afternoon ∧
      c7entryAfter.start_time = (if c7req.travel_morning.getD c7entry.travel_morning
        then c7req.start_time.getD c7entry.start_time - 3600
        else c7req.start_time.getD c7entry.start_time) ∧
      c7entryAfter.end_time = (if c7req.travel_afternoon.getD c7entry.travel_afternoon
        then c7req.end_time.getD c7entry.end_time + 3600
        else c7req.end_time.getD c7entry.end_time)) ∧
    (updateEntry c7state 1 c7req).toOption.map (fun r => r.1.start_time) =
      some 3600 :=
  ⟨(C7_update_reshift c7state 1 c7req c7entry rfl).1 c7entryAfter
      ⟨[], [], [c7entryAfter]⟩ rfl, rfl⟩

/-- C10: an entry update never changes the entry's creator or id — even when
the request carries a `user_id` field, which the handler ignores — and it
touches no user, no project, and no other entry: the new entry table is the
old one with only the target row replaced. -/
theorem C10_update_preserves_creator (s : AppState) (eid : Int)
    (req : EntryUpdateRequest) (entry : TimeEntry)
    (hfind : s.entries.find? (fun e => e.id == eid) = some entry) :
    ∀ e' s', updateEntry s eid req = .ok (e', s') →
      e'.user_id = entry.user_id ∧ e'.id = entry.id ∧
      s'.users = s.users ∧ s'.projects = s.projects ∧
      s'.entries = s.entries.map (fun e => if e.id == eid then e' else e) := by
  rw [updateEntry_eq s eid req entry hfind]
  by_cases h : (mkUpdatedEntry entry req).end_time ≤ (mkUpdatedEntry entry req).start_time
  · rw [if_pos h]
    intro e' s' hok
    cases hok
  · rw [if_neg h]
    intro e' s' hok
    injection hok with hok
    injection hok with hok1 hok2
    subst hok1; subst hok2
    exact ⟨rfl, rfl, rfl, rfl, rfl⟩

/-- An update request that tries to set `user_id` to 999. -/
def c10req : EntryUpdateRequest := ⟨none, none, none, none, none, none, some 999⟩

/-- Witness of C10: updating with a request carrying `user_id = 999` leaves
the entry's creator (user 1) and everything else untouched. -/
theorem C10_update_preserves_creator_witness :
    c7entry.user_id = some 1 ∧ c7entry.id = c7entry.id ∧
    c7state.users = c7state.users ∧ c7state.projects = c7state.projects ∧
    c7state.entries = c7state.entries.map (fun e => if e.id == 1 then c7entry else e) := by
  obtain ⟨h1, h2, h3, h4, h5⟩ :=
    C10_update_preserves_creator c7state 1 c10req c7entry rfl c7entry c7state rfl
  exact ⟨h1, h2, h3, h4, h5⟩

theorem mem_applyProjectFilter (o : Option Int) (l : List TimeEntry) (e : TimeEntry) :
    e ∈ applyProjectFilter o l ↔
      e ∈ l ∧ ∀ pid, o = some pid → e.project_id = pid := by
  cases o with
  | none => simp [applyProjectFilter]
  | some pid => simp [applyProjectFilter, List.mem_filter]

theorem mem_applyUserFilter (o : Option Int) (l : List TimeEntry) (e : TimeEntry) :
    e ∈ applyUserFilter o l ↔
      e ∈ l ∧ ∀ uid, o = some uid → e.user_id = some uid := by
  cases o with
  | none => simp [applyUserFilter]
  | some uid => simp [applyUserFilter, List.mem_filter]

theorem mem_applyStartFilter (dp : DateParam) (l : List TimeEntry) (e : TimeEntry) :
    e ∈ applyStartFilter dp l ↔
      e ∈ l ∧ ∀ d, dp = .valid d → d * 86400 ≤ e.start_time := by
  cases dp with
  | missing => simp [applyStartFilter]
  | invalid => simp [applyStartFilter]
  | valid d => simp [applyStartFilter, List.mem_filter]

theorem mem_applyEndFilter (dp : DateParam) (l : List TimeEntry) (e : TimeEntry) :
    e ∈ applyEndFilter dp l ↔
      e ∈ l ∧ ∀ d, dp = .valid d → e.start_time ≤ d * 86400 + 86399 := by
  cases dp with
  | missing => simp [applyEndFilter]
  | invalid => simp [applyEndFilter]
  | valid d => simp [applyEndFilter, List.mem_filter]

theorem sorted_applyProjectFilter (o : Option Int) {l : List TimeEntry}
    (h : List.Sorted entryDesc l) : List.Sorted entryDesc (applyProjectFilter o l) := by
  cases o with
  | none => exact h
  | some pid => exact List.Pairwise.sublist (List.filter_sublist l) h

theorem sorted_applyUserFilter (o : Option Int) {l : List TimeEntry}
    (h : List.Sorted entryDesc l) : List.Sorted entryDesc (applyUserFilter o l) := by
  cases o with
  | none => exact h
  | some uid => exact List.Pairwise.sublist (List.filter_sublist l) h

theorem sorted_applyStartFilter (dp : DateParam) {l : List TimeEntry}
    (h : List.Sorted entryDesc l) : List.Sorted entryDesc (applyStartFilter dp l) := by
  cases dp with
  | missing => exact h
  | invalid => exact h
  | valid d => exact List.Pairwise.sublist (List.filter_sublist l) h

theorem sorted_applyEndFilter (dp : DateParam) {l : List TimeEntry}
    (h : List.Sorted entryDesc l) : List.Sorted entryDesc (applyEndFilter dp l) := by
  cases dp with
  | missing => exact h
  | invalid => exact h
  | valid d => exact List.Pairwise.sublist (List.filter_sublist l) h

/-- C8: the entry listing fails with the start-date error on a malformed
start filter (before looking at the end filter), fails with the end-date
error on a malformed end filter, and otherwise returns exactly the entries
that pass the optional project and creator filters and whose stored start
time lies between the start date at 00:00 and the end date at 23:59:59
inclusive (the end time plays no role), in descending order of stored start
time. -/
theorem C8_listing (entries : List TimeEntry) (q : EntryListQuery) :
    (q.startD = .invalid → listEntries entries q = .error .invalidStartDate) ∧
    (q.startD ≠ .invalid → q.endD = .invalid →
      listEntries entries q = .error .invalidEndDate) ∧
    ∀ l, listEntries entries q = .ok l →
      (∀ e, e ∈ l ↔ (e ∈ entries ∧
        (∀ pid, q.project_id = some pid → e.project_id = pid) ∧
        (∀ uid, q.user_id = some uid → e.user_id = some uid) ∧
        (∀ d, q.startD = .valid d → d * 86400 ≤ e.start_time) ∧
        (∀ d, q.endD = .valid d → e.start_time ≤ d * 86400 + 86399))) ∧
      List.Sorted entryDesc l := by
  obtain ⟨qp, qu, qs, qe⟩ := q
  refine ⟨?_, ?_, ?_⟩
  · intro hs
    cases hs
    rfl
  · intro hs he
    cases he
    cases qs with
    | invalid => exact absurd rfl hs
    | missing => rfl
    | valid d => rfl
  · intro l hl
    have hok : ∀ (qs' qe' : DateParam),
        qs' ≠ .invalid → qe' ≠ .invalid →
        l = applyEndFilter qe' (applyStartFilter qs' (applyUserFilter qu
          (applyProjectFilter qp (List.insertionSort entryDesc entries)))) →
        (∀ e, e ∈ l ↔ (e ∈ entries ∧
          (∀ pid, qp = some pid → e.project_id = pid) ∧
          (∀ uid, qu = some uid → e.user_id = some uid) ∧
          (∀ d, qs' = .valid d → d * 86400 ≤ e.start_time) ∧
          (∀ d, qe' = .valid d → e.start_time ≤ d * 86400 + 86399))) ∧
        List.Sorted entryDesc l := by
      intro qs' qe' _ _ hleq
      subst hleq
      constructor
      · intro e
        rw [mem_applyEndFilter, mem_applyStartFilter, mem_applyUserFilter,
          mem_applyProjectFilter,
          (List.perm_insertionSort entryDesc entries).mem_iff]
        tauto
      · exact sorted_applyEndFilter _ (sorted_applyStartFilter _
          (sorted_applyUserFilter _ (sorted_applyProjectFilter _
            (List.sorted_insertionSort entryDesc entries))))
    cases qs with
    | invalid => cases hl
    | missing =>
      cases qe with
      | invalid => cases hl
      | missing =>
        injection hl with hl
        exact hok .missing .missing (by simp) (by simp) hl.symm
      | valid d2 =>
        injection hl with hl
        exact hok .missing (.valid d2) (by simp) (by simp) hl.symm
    | valid d1 =>
      cases qe with
      | invalid => cases hl
      | missing =>
        injection hl with hl
        exact hok (.valid d1) .missing (by simp) (by simp) hl.symm
      | valid d2 =>
        injection hl with hl
        exact hok (.valid d1) (.valid d2) (by simp) (by simp) hl.symm

/-- Entry list exercised by the C8 witness. -/
def c8entries : List TimeEntry :=
  [⟨1, some 1, 1, 50000, 60000, "", false, false⟩,
    ⟨2, some 1, 1, 100000, 110000, "", false, false⟩,
    ⟨3, none, 2, 10000, 20000, "", false, false⟩]

/-- Listing query of the C8 witness: no project/user filter, date range
covering day 0 only. -/
def c8q : EntryListQuery := ⟨none, none, .valid 0, .valid 0⟩

/-- Result of the C8 witness listing: the two day-0 entries, newest first. -/
def c8result : List TimeEntry :=
  [⟨1, some 1, 1, 50000, 60000, "", false, false⟩,
    ⟨3, none, 2, 10000, 20000, "", false, false⟩]

/-- Witness of C8: the day-0 query over c8entries returns exactly the two
entries starting on day 0, in descending start order. -/
theorem C8_listing_witness :
    ((⟨1, some 1, 1, 50000, 60000, "", false, false⟩ : TimeEntry) ∈ c8result ↔
      ((⟨1, some 1, 1, 50000, 60000, "", false, false⟩ : TimeEntry) ∈ c8entries ∧
        (∀ pid, c8q.project_id = some pid →
          (⟨1, some 1, 1, 50000, 60000, "", false, false⟩ : TimeEntry).project_id = pid) ∧
        (∀ uid, c8q.user_id = some uid →
          (⟨1, some 1, 1, 50000, 60000, "", false, false⟩ : TimeEntry).user_id = some uid) ∧
        (∀ d, c8q.startD = .valid d → d * 86400 ≤
          (⟨1, some 1, 1, 50000, 60000, "", false, false⟩ : TimeEntry).start_time) ∧
        (∀ d, c8q.endD = .valid d →
          (⟨1, some 1, 1, 50000, 60000, "", false, false⟩ : TimeEntry).start_time ≤
            d * 86400 + 86399))) ∧
    List.Sorted entryDesc c8result := by
  have h := (C8_listing c8entries c8q).2.2 c8result rfl
  exact ⟨h.1 ⟨1, some 1, 1, 50000, 60000, "", false, false⟩, h.2⟩

theorem resolvedDivision_empty (req : ProjectRequest)
    (hd : pyStrip (req.division.getD "") = "") :
    resolvedDivision req = "Melbourne Power" := by
  unfold resolvedDivision
  rw [hd]
  rfl

theorem resolvedDivision_nonempty (req : ProjectRequest)
    (hd : pyStrip (req.division.getD "") ≠ "") :
    resolvedDivision req = pyStrip (req.division.getD "") := by
  unfold resolvedDivision
  rw [if_neg (by simp [hd])]

theorem createProject_invalidDivision_iff (projects : List Project)
    (req : ProjectRequest) :
    createProject projects req = .error .invalidDivision ↔
      validDivision (resolvedDivision req) = false := by
  constructor
  · intro h
    by_contra hvf
    have hv : validDivision (resolvedDivision req) = true := by
      cases hb : validDivision (resolvedDivision req)
      · exact absurd hb hvf
      · rfl
    cases hpf : req.prefixField with
    | absent =>
      by_cases ht : (pyStrip (req.title.getD "") == "") = true
      · unfold createProject at h
        rw [if_neg (by simp [hv]), if_pos ht] at h
        injection h with h
        cases h
      · by_cases hcol : projects.any (fun p =>
            p.prefixNum == nextProjectPrefix projects (resolvedDivision req)) = true
        · rw [createProject_noPrefix_collision projects req hv
            (by simpa using ht) (Or.inl hpf) hcol] at h
          injection h with h
          cases h
        · rw [createProject_noPrefix projects req hv
            (by simpa using ht) (Or.inl hpf) (by simpa using hcol)] at h
          cases h
    | emptyStr =>
      by_cases ht : (pyStrip (req.title.getD "") == "") = true
      · unfold createProject at h
        rw [if_neg (by simp [hv]), if_pos ht] at h
        injection h with h
        cases h
      · by_cases hcol : projects.any (fun p =>
            p.prefixNum == nextProjectPrefix projects (resolvedDivision req)) = true
        · rw [createProject_noPrefix_collision projects req hv
            (by simpa using ht) (Or.inr hpf) hcol] at h
          injection h with h
          cases h
        · rw [createProject_noPrefix projects req hv
            (by simpa using ht) (Or.inr hpf) (by simpa using hcol)] at h
          cases h
    | malformed =>
      rw [createProject_malformed projects req hpf,
        if_neg (by simp [hv])] at h
      split_ifs at h <;> (injection h with h; cases h)
    | intVal n =>
      rw [createProject_intVal projects req n hpf,
        if_neg (by simp [hv])] at h
      split_ifs at h
      all_goals injection h with h
      all_goals cases h
  · intro hv
    unfold createProject
    rw [if_pos (by simp [hv])]

theorem createProject_ok_division (projects : List Project) (req : ProjectRequest)
    (p : Project) (l : List Project)
    (hok : createProject projects req = .ok (p, l)) :
    p.division = resolvedDivision req := by
  by_cases hv : validDivision (resolvedDivision req) = true
  case neg =>
    unfold createProject at hok
    rw [if_pos (by simp at hv ⊢; exact hv)] at hok
    cases hok
  case pos =>
  by_cases ht : (pyStrip (req.title.getD "") == "") = true
  case pos =>
    unfold createProject at hok
    rw [if_neg (by simp [hv]), if_pos ht] at hok
    cases hok
  case neg =>
  cases hpf : req.prefixField with
  | absent =>
    by_cases hcol : projects.any (fun p =>
        p.prefixNum == nextProjectPrefix projects (resolvedDivision req)) = true
    · rw [createProject_noPrefix_collision projects req hv (by simpa using ht)
        (Or.inl hpf) hcol] at hok
      cases hok
    · rw [createProject_noPrefix projects req hv (by simpa using ht)
        (Or.inl hpf) (by simpa using hcol)] at hok
      injection hok with hok
      injection hok with hok1 hok2
      rw [← hok1]
      rfl
  | emptyStr =>
    by_cases hcol : projects.any (fun p =>
        p.prefixNum == nextProjectPrefix projects (resolvedDivision req)) = true
    · rw [createProject_noPrefix_collision projects req hv (by simpa using ht)
        (Or.inr hpf) hcol] at hok
      cases hok
    · rw [createProject_noPrefix projects req hv (by simpa using ht)
        (Or.inr hpf) (by simpa using hcol)] at hok
      injection hok with hok
      injection hok with hok1 hok2
      rw [← hok1]
      rfl
  | malformed =>
    rw [createProject_malformed projects req hpf, if_neg (by simp [hv])] at hok
    split_ifs at hok
  | intVal n =>
    rw [createProject_intVal projects req n hpf, if_neg (by simp [hv])] at hok
    split_ifs at hok
    all_goals cases hok
    rfl

/-- Counterexample to C9: a creation request with no division field (and no
title) is not created — it fails with the title validation error — so the
claim that every missing-division request yields a created project fails. -/
theorem C9_counterexample :
    createProject [] ⟨none, none, .absent⟩ = .error .titleRequired := rfl

/-- C9 amended: a creation request whose division is missing or
whitespace-only passes the division check with the default division
Melbourne Power — it never draws the division validation error and any
project it creates carries division Melbourne Power; when additionally the
title is nonempty after trimming and no explicit prefix is supplied, the
project is created iff no existing project of either division already holds
the auto prefix the allocator assigns, the colliding case instead violating
the unique prefix index so that the commit fails with the storage error and
nothing is created; the division validation error occurs only for a division
that is non-empty after trimming and equal to neither recognized value. -/
theorem C9_amended_division_default (projects : List Project)
    (req : ProjectRequest) :
    (pyStrip (req.division.getD "") = "" →
      createProject projects req ≠ .error .invalidDivision ∧
      (∀ p l, createProject projects req = .ok (p, l) →
        p.division = "Melbourne Power") ∧
      (pyStrip (req.title.getD "") ≠ "" →
        (req.prefixField = .absent ∨ req.prefixField = .emptyStr) →
        (projects.any (fun q =>
            q.prefixNum == nextProjectPrefix projects "Melbourne Power") = false →
          ∃ p l, createProject projects req = .ok (p, l) ∧
            p.division = "Melbourne Power") ∧
        (projects.any (fun q =>
            q.prefixNum == nextProjectPrefix projects "Melbourne Power") = true →
          createProject projects req = .error .integrityError))) ∧
    (createProject projects req = .error .invalidDivision →
      pyStrip (req.division.getD "") ≠ "" ∧
      pyStrip (req.division.getD "") ≠ "Melbourne Power" ∧
      pyStrip (req.division.getD "") ≠ "Liquid Pack") := by
  constructor
  · intro hd
    have hres : resolvedDivision req = "Melbourne Power" :=
      resolvedDivision_empty req hd
    have hv : validDivision (resolvedDivision req) = true := by
      rw [hres]
      rfl
    refine ⟨?_, ?_, ?_⟩
    · intro hc
      have hf := (createProject_invalidDivision_iff projects req).mp hc
      rw [hv] at hf
      cases hf
    · intro p l hok
      rw [createProject_ok_division projects req p l hok, hres]
    · intro ht hpf
      constructor
      · intro hcol
        rw [createProject_noPrefix projects req hv (by simp [ht]) hpf
          (by rw [hres]; exact hcol)]
        exact ⟨_, _, rfl, hres⟩
      · intro hcol
        exact createProject_noPrefix_collision projects req hv (by simp [ht]) hpf
          (by rw [hres]; exact hcol)
  · intro hc
    have hf := (createProject_invalidDivision_iff projects req).mp hc
    by_cases hd : pyStrip (req.division.getD "") = ""
    · rw [resolvedDivision_empty req hd] at hf
      cases hf
    · rw [resolvedDivision_nonempty req hd] at hf
      refine ⟨hd, ?_, ?_⟩
      · intro hMP
        rw [hMP] at hf
        cases hf
      · intro hLP
        rw [hLP] at hf
        cases hf

/-- Witness of C9 (amended): with a whitespace-only division and title "T",
the project is created under the default division Melbourne Power on an
empty table; and on the reachable table holding a Liquid Pack machine-ID
project with custom prefix 1000, the same request draws auto prefix 1000,
violates the unique prefix index, and fails with the storage error. -/
theorem C9_amended_division_default_witness :
    pyStrip ((some "  " : Option String).getD "") = "" ∧
    (∃ p l, createProject [] ⟨some "T", some "  ", .absent⟩ = .ok (p, l) ∧
      p.division = "Melbourne Power") ∧
    (∃ p l, createProject [] ⟨some "M", some "Liquid Pack", .intVal 1000⟩ =
      .ok (p, l)) ∧
    createProject [⟨1, "M", 1000, "Liquid Pack", true⟩]
      ⟨some "T", some "  ", .absent⟩ = .error .integrityError := by
  refine ⟨by decide, ?_, ⟨_, _, rfl⟩, ?_⟩
  · exact (((C9_amended_division_default [] ⟨some "T", some "  ", .absent⟩).1
      (by decide)).2.2 (by decide) (Or.inl rfl)).1 (by decide)
  · exact (((C9_amended_division_default [⟨1, "M", 1000, "Liquid Pack", true⟩]
      ⟨some "T", some "  ", .absent⟩).1 (by decide)).2.2 (by decide)
      (Or.inl rfl)).2 (by decide)
